import Mathlib

/-!
Verification of the block-run dispatcher (src/block-run.py).

The Python source is shallowly embedded below.  Pure string manipulation
is modelled over `List Char` / `List String`; the ambient filesystem and
subprocess environment (configuration file contents, wrapper directory
contents, `shutil.which`, the pygmentize highlighter) is passed in
explicitly as data, following the spec's design note that the global
search-path lists are immutable configuration constructed at startup.
-/

namespace BlockRun

/-- ASCII whitespace recognised by Python's `str.strip()` / `str.split()`
(space, tab, newline, carriage return, vertical tab, form feed).
Non-ASCII Unicode whitespace is not modelled. -/
def isPySpace (c : Char) : Bool :=
  c = ' ' || c = '\t' || c = '\n' || c = '\r' || c.val = 11 || c.val = 12

/-- Python `s.strip()`: remove leading and trailing whitespace. -/
def pyStrip (s : String) : String :=
  String.mk (((s.toList.dropWhile isPySpace).reverse.dropWhile isPySpace).reverse)

/-- Python `s.startswith(p)`. -/
def pyStartsWith (s p : String) : Bool :=
  List.isPrefixOf p.toList s.toList

/-- `not line.strip()`: the line is empty or whitespace-only. -/
def isBlank (line : String) : Bool :=
  pyStrip line = ""

/-- Line-break characters recognised by Python's `str.splitlines()`:
\n, \r, \v, \f, \x1c (FS), \x1d (GS), \x1e (RS), \x85 (NEL),
  (LS),   (PS).  Note that the marker character \x1d is a
line break for `splitlines` — the reason `process_output` splits on
"\n" instead. -/
def isPyLineBreak (c : Char) : Bool :=
  c = '\n' || c = '\r' || c.val = 0x0b || c.val = 0x0c || c.val = 0x1c ||
  c.val = 0x1d || c.val = 0x1e || c.val = 0x85 || c.val = 0x2028 || c.val = 0x2029

/-- Worker for `pySplitlines`: accumulates the current line's characters.
"\r\n" counts as a single break; a trailing break does not open an
empty final line. -/
def splitlinesAux : List Char → List Char → List String
  | [], cur => if cur.isEmpty then [] else [String.mk cur]
  | '\r' :: '\n' :: rest, cur => String.mk cur :: splitlinesAux rest []
  | c :: rest, cur =>
      if isPyLineBreak c then String.mk cur :: splitlinesAux rest []
      else splitlinesAux rest (cur ++ [c])

/-- Python `s.splitlines()`. -/
def pySplitlines (s : String) : List String :=
  splitlinesAux s.toList []

/-- Worker for `pySplitNl`. -/
def splitNlAux : List Char → List Char → List String
  | [], cur => [String.mk cur]
  | c :: rest, cur =>
      if c = '\n' then String.mk cur :: splitNlAux rest []
      else splitNlAux rest (cur ++ [c])

/-- Python `s.split("\n")`: split on the newline character only.  Always
returns at least one segment; a trailing newline yields a final empty
segment. -/
def pySplitNl (s : String) : List String :=
  splitNlAux s.toList []

/-! ## Block Splitter (src/block-run.py lines 193-233)

The loops accumulate the current block as a list of lines; the final
block strings are the "\n"-joins of those lists, exactly as the source
appends the "\n"-join of current_block at each flush. -/

/-- Loop body of `split_blocks_blank_lines`: a blank line flushes a
non-empty current block and is discarded; any other line is appended to
the current block; at end of input a non-empty current block is flushed. -/
def blankAux : List String → List String → List (List String)
  | [], cur => if cur.isEmpty then [] else [cur]
  | line :: rest, cur =>
      if isBlank line then
        if cur.isEmpty then blankAux rest []
        else cur :: blankAux rest []
      else blankAux rest (cur ++ [line])

/-- `split_blocks_blank_lines(content)`: split content into blocks
separated by blank lines. -/
def split_blocks_blank_lines (content : String) : List String :=
  (blankAux (pySplitlines content) []).map (String.intercalate "\n")

/-- Loop body of `split_blocks_hierarchical`: a line starting with
"## " flushes any open block and opens a new one holding just the
header; any other line is appended unless no block is open and the line
is blank (dropped); at end of input the open block is flushed. -/
def hierAux : List String → List String → List (List String)
  | [], cur => if cur.isEmpty then [] else [cur]
  | line :: rest, cur =>
      if pyStartsWith line "## " then
        if cur.isEmpty then hierAux rest [line]
        else cur :: hierAux rest [line]
      else
        if !cur.isEmpty || !isBlank line then hierAux rest (cur ++ [line])
        else hierAux rest cur

/-- `split_blocks_hierarchical(content)`: split content into blocks
separated by "## " headers. -/
def split_blocks_hierarchical (content : String) : List String :=
  (hierAux (pySplitlines content) []).map (String.intercalate "\n")

/-! ### Spec-side characterisation for the blank-line strategy -/

/-- Modelled from the spec's words: counts the maximal runs of
consecutive non-blank lines.  The flag records whether the previous
line belonged to a run. -/
def specRunCountAux : List String → Bool → Nat
  | [], _ => 0
  | l :: rest, inRun =>
      if isBlank l then specRunCountAux rest false
      else if inRun then specRunCountAux rest true
      else specRunCountAux rest true + 1

/-- Modelled from the spec's words: the number of maximal runs of
consecutive non-blank lines in a line sequence. -/
def spec_runCount (lines : List String) : Nat :=
  specRunCountAux lines false

/-! ## Output Reassembler (src/block-run.py lines 236-264)

`process_output` prints a sequence of lines; the model returns the list
of `print` payloads together with a terminal status: `some
InvalidMarkerIndex` models the uncaught IndexError raised by
`blocks[idx]` on an out-of-range marker index, which aborts the loop
(lines already printed are kept).  The pygmentize highlighter — a
subprocess, identity when unavailable — is abstracted as `hl`. -/

/-- ASCII Group Separator, the marker framing character. -/
def markerChar : Char := '\x1d'

/-- ANSI cyan, f-string prefix of the block-number header. -/
def CYAN : String := "\x1b[36m"

/-- ANSI dim. -/
def DIM : String := "\x1b[2m"

/-- ANSI reset. -/
def RESET : String := "\x1b[0m"

/-- `separator()`: the dim horizontal rule printed after each rendered
block (41 box-drawing dashes). -/
def separator : String := DIM ++ String.mk (List.replicate 41 '─') ++ RESET

/-- Scanner for the digits of a marker line: after the opening
separator and brace, consume decimal digits, then require a closing
brace immediately followed by the separator at end of line.  Returns
the decimal value.  ASCII digits model the regex's digit class. -/
def parseMarkerDigits : List Char → List Char → Option Nat
  | [], _ => none
  | ['}', c], acc =>
      if c = markerChar && !acc.isEmpty then
        some (acc.foldl (fun n d => 10 * n + (d.toNat - '0'.toNat)) 0)
      else none
  | c :: rest, acc =>
      if c.isDigit then parseMarkerDigits rest (acc ++ [c]) else none

/-- The compiled `marker_pattern` from `process_output`: a full-line
match of separator, brace, digits, brace, separator yields the decimal
block index. -/
def parseMarker (line : String) : Option Nat :=
  match line.toList with
  | c0 :: '{' :: rest => if c0 = markerChar then parseMarkerDigits rest [] else none
  | _ => none

/-- The error taxonomy entry raised during reassembly: the claim's
`InvalidMarkerIndex`, realised in the source as the IndexError from
`blocks[idx]`. -/
inductive BRError where
  | InvalidMarkerIndex
deriving DecidableEq, Repr

/-- The "# Block N" header line (N is the 1-based block number). -/
def blockHeader (idx : Nat) : String := CYAN ++ "# Block " ++ toString (idx + 1) ++ RESET

/-- Loop body of `process_output` over the already-split lines. -/
def processLines (blocks : List String) (hl : String → String) (sbn : Bool) :
    List String → List String × Option BRError
  | [] => ([], none)
  | line :: rest =>
      match parseMarker line with
      | some idx =>
          match blocks[idx]? with
          | some b =>
              let r := processLines blocks hl sbn rest
              ((if sbn then [blockHeader idx] else []) ++ hl b :: separator :: r.1, r.2)
          | none =>
              ((if sbn then [blockHeader idx] else []), some BRError.InvalidMarkerIndex)
      | none =>
          let r := processLines blocks hl sbn rest
          (line :: r.1, r.2)

/-- `process_output(output, blocks, lexer, show_block_numbers)`:
split the captured output on "\n" only and replace marker lines with
the rendered block followed by a separator. -/
def process_output (output : String) (blocks : List String) (hl : String → String)
    (sbn : Bool) : List String × Option BRError :=
  processLines blocks hl sbn (pySplitNl output)

/-! ## Shebang Resolver (src/block-run.py lines 83-107)

`shutil.which` — resolution of a command against the executable search
path — is an environment lookup, passed in as `which`. -/

/-- `shebang.lstrip("#!").strip()`: note that Python's `lstrip` with a
character set removes the maximal leading run of '#' and '!'
characters, not merely the two-character prefix. -/
def shebangRemainder (line : String) : String :=
  pyStrip (String.mk (line.toList.dropWhile (fun c => c = '#' || c = '!')))

/-- The regex match of a remainder against /usr/bin/env, one or more
whitespace characters, and a captured run of non-whitespace: returns
the captured command. -/
def envMatch (s : String) : Option String :=
  if pyStartsWith s "/usr/bin/env" then
    match s.toList.drop 12 with
    | [] => none
    | c :: rest =>
        if isPySpace c then
          match ((c :: rest).dropWhile isPySpace).takeWhile (fun ch => !isPySpace ch) with
          | [] => none
          | t :: ts => some (String.mk (t :: ts))
        else none
  else none

/-- `s.split()[0]`: the first whitespace-delimited token. -/
def firstToken (s : String) : String :=
  String.mk ((s.toList.dropWhile isPySpace).takeWhile (fun c => !isPySpace c))

/-- Body of `parse_shebang` on the stripped remainder: empty remainder
fails; an env-style remainder resolves the command on the search path,
keeping the bare command when resolution fails; otherwise the first
token of the direct path is returned. -/
def resolveRemainder (which : String → Option String) (s : String) : Option String :=
  if s = "" then none
  else
    match envMatch s with
    | some cmd =>
        some (match which cmd with
              | some resolved => resolved
              | none => cmd)
    | none => some (firstToken s)

/-- `parse_shebang(shebang)`: extract the binary identifier from the
shebang line, with `which` standing for `shutil.which`.  `none` models
the `None` return that `main` reports as a malformed shebang. -/
def parse_shebang (which : String → Option String) (line : String) : Option String :=
  resolveRemainder which (shebangRemainder line)

/-! ## Wrapper Locator (src/block-run.py lines 110-144)

The filesystem is passed in as data: `configs` holds the lines of the
config files that exist, in search order; `dirs` pairs each wrapper
directory's path with the predicate "this name is an executable regular
file here", in search order. -/

/-- Split a character list on '/'. -/
def splitSlashAux : List Char → List Char → List String
  | [], cur => [String.mk cur]
  | c :: rest, cur =>
      if c = '/' then String.mk cur :: splitSlashAux rest []
      else splitSlashAux rest (cur ++ [c])

/-- `Path(binary).name`: the last non-empty slash-separated component
(empty when there is none).  Models pathlib for paths without "." or
".." components. -/
def pathBasename (p : String) : String :=
  ((splitSlashAux p.toList []).filter (fun comp => comp ≠ "")).getLastD ""

/-- `wrapper_dir / wrapper_name` in pathlib: an absolute right operand
replaces the left. -/
def pathJoin (dir name : String) : String :=
  if pyStartsWith name "/" then name else dir ++ "/" ++ name

/-- `line.split("=", 1)[1]`: everything after the first '='. -/
def afterFirstEq (line : String) : String :=
  String.mk ((line.toList.dropWhile (fun c => c ≠ '=')).drop 1)

/-- Inner loop over one config file's lines: the first line starting
with `binary` + "=" yields its stripped value. -/
def configLookup1 (binary : String) : List String → Option String
  | [] => none
  | line :: rest =>
      if pyStartsWith line (binary ++ "=") then some (pyStrip (afterFirstEq line))
      else configLookup1 binary rest

/-- Python truthiness of the `wrapper_name` variable: a non-empty
string. -/
def truthy : Option String → Bool
  | some v => v != ""
  | none => false

/-- Outer loop over the config files: `wrapper_name` persists across
iterations and the loop breaks on the first truthy value. -/
def findWrapperName (binary : String) : List (List String) → Option String → Option String
  | [], wn => wn
  | f :: rest, wn =>
      let wn2 := match configLookup1 binary f with
                 | some v => some v
                 | none => wn
      if truthy wn2 then wn2 else findWrapperName binary rest wn2

/-- `if not wrapper_name: wrapper_name = basename` — both `None` and
the empty string fall back to the basename. -/
def wrapperNameOrBasename (binary : String) : Option String → String
  | some v => if v = "" then pathBasename binary else v
  | none => pathBasename binary

/-- Loop over the wrapper directories: first directory holding an
executable file of the wanted name wins. -/
def searchDirs (name : String) : List (String × (String → Bool)) → Option String
  | [] => none
  | (d, hasExec) :: rest =>
      if hasExec name then some (pathJoin d name) else searchDirs name rest

/-- `find_wrapper(binary)`: config lookup for the wrapper name, then
directory search. -/
def find_wrapper (binary : String) (configs : List (List String))
    (dirs : List (String × (String → Bool))) : Option String :=
  searchDirs (wrapperNameOrBasename binary (findWrapperName binary configs none)) dirs

/-- Modelled from the claim's words (C5): the first config source
containing an entry keyed by the full identifier wins outright; only
when no source has such an entry does the basename apply. -/
def claim_wrapper_name (binary : String) : List (List String) → String
  | [] => pathBasename binary
  | f :: rest =>
      match configLookup1 binary f with
      | some v => v
      | none => claim_wrapper_name binary rest

/-- The locator as the claim C5 literally describes it. -/
def claim_find_wrapper (binary : String) (configs : List (List String))
    (dirs : List (String × (String → Bool))) : Option String :=
  searchDirs (claim_wrapper_name binary configs) dirs

/-- The amended wrapper-name rule: the first config source whose entry
for the identifier has a non-empty stripped value wins; empty-valued
entries are skipped; with no winner the basename applies. -/
def amended_wrapper_name (binary : String) : List (List String) → String
  | [] => pathBasename binary
  | f :: rest =>
      match configLookup1 binary f with
      | some v => if v = "" then amended_wrapper_name binary rest else v
      | none => amended_wrapper_name binary rest

/-! ## Executor Invocation (src/block-run.py line 345) -/

/-- The wrapper invocation argument vector built in `main`. -/
def wrapper_args (wrapper binary : String) (blocks : List String) : List String :=
  [wrapper, "--binary", binary, "--"] ++ blocks

/-! ## Theorems -/

theorem blankAux_length (lines : List String) :
    ∀ cur : List String,
      (blankAux lines cur).length =
        (if cur.isEmpty then 0 else 1) + specRunCountAux lines (!cur.isEmpty) := by
  induction lines with
  | nil =>
      intro cur
      by_cases h : cur.isEmpty <;> simp [blankAux, specRunCountAux, h]
  | cons l rest ih =>
      intro cur
      by_cases hb : isBlank l
      · by_cases h : cur.isEmpty
        · simp [blankAux, specRunCountAux, hb, h, ih]
        · simp [blankAux, specRunCountAux, hb, h, ih []]
          omega
      · by_cases h : cur.isEmpty
        · have : ¬ (cur ++ [l]).isEmpty := by simp
          simp [blankAux, specRunCountAux, hb, h, ih (cur ++ [l]), this]
          omega
        · have : ¬ (cur ++ [l]).isEmpty := by simp
          simp [blankAux, specRunCountAux, hb, h, ih (cur ++ [l]), this]

theorem blankAux_join (lines : List String) :
    ∀ cur : List String,
      (blankAux lines cur).flatten = cur ++ lines.filter (fun l => !isBlank l) := by
  induction lines with
  | nil =>
      intro cur
      by_cases h : cur.isEmpty
      · simp [blankAux, h, List.isEmpty_iff.mp h]
      · simp [blankAux, h]
  | cons l rest ih =>
      intro cur
      by_cases hb : isBlank l
      · by_cases h : cur.isEmpty
        · simp [blankAux, hb, h, ih [], List.isEmpty_iff.mp h]
        · simp [blankAux, hb, h, ih []]
      · simp [blankAux, hb, ih (cur ++ [l])]

theorem blankAux_blocks (lines : List String) :
    ∀ cur : List String, (∀ l ∈ cur, ¬ isBlank l) →
      ∀ b ∈ blankAux lines cur, b ≠ [] ∧ ∀ l ∈ b, ¬ isBlank l := by
  induction lines with
  | nil =>
      intro cur hcur b hb
      by_cases h : cur.isEmpty
      · simp [blankAux, h] at hb
      · simp [blankAux, h] at hb
        subst hb
        exact ⟨by simpa using h, hcur⟩
  | cons l rest ih =>
      intro cur hcur b hb
      by_cases hbl : isBlank l
      · by_cases h : cur.isEmpty
        · simp only [blankAux, hbl, if_true, h] at hb
          exact ih [] (by simp) b hb
        · simp only [blankAux, hbl, if_true, h, if_false] at hb
          rcases List.mem_cons.mp hb with rfl | hb
          · exact ⟨by simpa using h, hcur⟩
          · exact ih [] (by simp) b hb
      · simp only [blankAux, hbl, if_false] at hb
        refine ih (cur ++ [l]) ?_ b hb
        intro x hx
        rcases List.mem_append.mp hx with hx | hx
        · exact hcur x hx
        · simp at hx
          simpa [hx] using hbl

/-- C1: Blank-line splitting.  For every document body, the blank-line
strategy returns exactly one block per maximal run of consecutive
non-blank lines, in document order; the concatenation of all blocks'
lines is exactly the non-blank lines of the body in their original
order; no block is empty and no blank line occurs inside any block;
the returned block strings are the newline-joins of those line lists. -/
theorem blank_line_splitting (content : String) :
    (blankAux (pySplitlines content) []).length = spec_runCount (pySplitlines content) ∧
    (blankAux (pySplitlines content) []).flatten =
      (pySplitlines content).filter (fun l => !isBlank l) ∧
    (∀ b ∈ blankAux (pySplitlines content) [], b ≠ [] ∧ ∀ l ∈ b, ¬ isBlank l) ∧
    split_blocks_blank_lines content =
      (blankAux (pySplitlines content) []).map (String.intercalate "\n") := by
  refine ⟨?_, blankAux_join _ [], blankAux_blocks _ [] (by simp), rfl⟩
  simpa [spec_runCount] using blankAux_length (pySplitlines content) []

/-- Witness for C1 at a concrete body: "a\nb\n\n\nc" has two maximal
runs of non-blank lines. -/
theorem blank_line_splitting_witness :
    (blankAux (pySplitlines "a\nb\n\n\nc") []).length =
      spec_runCount (pySplitlines "a\nb\n\n\nc") ∧
    split_blocks_blank_lines "a\nb\n\n\nc" = ["a\nb", "c"] := by
  exact ⟨(blank_line_splitting "a\nb\n\n\nc").1, by decide⟩

theorem hierAux_headed (lines : List String) :
    ∀ l0 t0, pyStartsWith l0 "## " = true →
      ∀ b ∈ hierAux lines (l0 :: t0), ∃ h t, b = h :: t ∧ pyStartsWith h "## " = true := by
  induction lines with
  | nil =>
      intro l0 t0 h0 b hb
      simp [hierAux] at hb
      subst hb
      exact ⟨l0, t0, rfl, h0⟩
  | cons l rest ih =>
      intro l0 t0 h0 b hb
      by_cases hl : pyStartsWith l "## "
      · simp only [hierAux, hl, if_true, List.isEmpty_cons, Bool.false_eq_true,
          if_false] at hb
        rcases List.mem_cons.mp hb with rfl | hb'
        · exact ⟨l0, t0, rfl, h0⟩
        · exact ih l [] hl b hb'
      · simp only [hierAux, hl, Bool.false_eq_true, if_false, List.isEmpty_cons,
          Bool.not_false, Bool.true_or, if_true, List.cons_append] at hb
        exact ih l0 (t0 ++ [l]) h0 b hb

theorem hierAux_tail_headed (lines : List String) :
    ∀ cur, ∀ b ∈ (hierAux lines cur).drop 1,
      ∃ h t, b = h :: t ∧ pyStartsWith h "## " = true := by
  induction lines with
  | nil =>
      intro cur b hb
      by_cases h : cur.isEmpty <;> simp [hierAux, h] at hb
  | cons l rest ih =>
      intro cur b hb
      by_cases hl : pyStartsWith l "## "
      · by_cases h : cur.isEmpty
        · simp only [hierAux, hl, if_true, h] at hb
          exact hierAux_headed rest l [] hl b (List.mem_of_mem_drop hb)
        · simp only [hierAux, hl, if_true, h, Bool.false_eq_true, if_false,
            List.drop_succ_cons, List.drop_zero] at hb
          exact hierAux_headed rest l [] hl b hb
      · by_cases hc : (!cur.isEmpty || !isBlank l) = true
        · simp only [hierAux, hl, Bool.false_eq_true, if_false, hc, if_true] at hb
          exact ih (cur ++ [l]) b hb
        · simp only [hierAux, hl, Bool.false_eq_true, if_false, hc] at hb
          exact ih cur b hb

theorem hierAux_noHeader (lines : List String) :
    ∀ cur : List String, cur ≠ [] →
      (∀ l ∈ lines, pyStartsWith l "## " = false) →
      hierAux lines cur = [cur ++ lines] := by
  induction lines with
  | nil =>
      intro cur hc _
      have hcur : cur.isEmpty = false := by simpa [List.isEmpty_iff] using hc
      simp [hierAux, hcur]
  | cons l rest ih =>
      intro cur hc hno
      have hl : pyStartsWith l "## " = false := hno l (by simp)
      have hcur : cur.isEmpty = false := by simpa [List.isEmpty_iff] using hc
      simp only [hierAux, hl, Bool.false_eq_true, if_false, hcur, Bool.not_false,
        Bool.true_or, if_true]
      rw [ih (cur ++ [l]) (by simp) (fun x hx => hno x (by simp [hx]))]
      simp

/-- C4 counterexample: the body "a\n" is non-empty, has no "## " line
and no leading blank line, yet the hierarchical strategy returns the
single block "a", whose text is not the whole body "a\n" (the trailing
newline is lost in the join of the body's lines). -/
theorem hierarchical_whole_body_cex :
    split_blocks_hierarchical "a\n" = ["a"] ∧
    pySplitlines "a\n" = ["a"] ∧
    isBlank "a" = false ∧
    (∀ l ∈ pySplitlines "a\n", pyStartsWith l "## " = false) ∧
    split_blocks_hierarchical "a\n" ≠ ["a\n"] := by
  decide

/-- C4 (amended): every block returned by the hierarchical strategy
except possibly the first begins with a line starting with "## "; and
for every body whose line sequence is non-empty, contains no line
starting with "## ", and does not start with a blank line, the strategy
returns exactly one block whose text is the newline-join of the body's
lines (the whole body whenever the body has no trailing or exotic line
terminator). -/
theorem hierarchical_splitting (content : String) :
    (∀ b ∈ (hierAux (pySplitlines content) []).drop 1,
        ∃ h t, b = h :: t ∧ pyStartsWith h "## " = true) ∧
    split_blocks_hierarchical content =
      (hierAux (pySplitlines content) []).map (String.intercalate "\n") ∧
    (∀ h rest, pySplitlines content = h :: rest →
        (∀ l ∈ pySplitlines content, pyStartsWith l "## " = false) →
        isBlank h = false →
        split_blocks_hierarchical content =
          [String.intercalate "\n" (pySplitlines content)]) := by
  refine ⟨hierAux_tail_headed _ [], rfl, ?_⟩
  intro h rest hlines hno hblank
  have hh : pyStartsWith h "## " = false := hno h (by simp [hlines])
  unfold split_blocks_hierarchical
  rw [hlines]
  simp only [hierAux, hh, Bool.false_eq_true, if_false, List.isEmpty_nil,
    Bool.not_true, hblank, Bool.not_false, Bool.or_true, if_true, List.nil_append]
  rw [hierAux_noHeader rest [h] (by simp) (fun x hx => hno x (by simp [hlines, hx]))]
  simp [hlines]

/-- Witness for C4: a two-line body with no headers yields one block. -/
theorem hierarchical_splitting_witness :
    split_blocks_hierarchical "x\ny" = ["x\ny"] := by
  have h := (hierarchical_splitting "x\ny").2.2 "x" ["y"] (by decide) (by decide) (by decide)
  rw [h]
  decide

theorem splitNlAux_append_newline (l : List Char) :
    ∀ cur, splitNlAux (l ++ ['\n']) cur = splitNlAux l cur ++ [""] := by
  induction l with
  | nil => intro cur; rfl
  | cons c rest ih =>
      intro cur
      by_cases hc : c = '\n'
      · simp [splitNlAux, hc, ih]
      · simp [splitNlAux, hc, ih]

theorem pySplitNl_append_newline (s : String) :
    pySplitNl (s ++ "\n") = pySplitNl s ++ [""] := by
  have h : (s ++ "\n").toList = s.toList ++ ['\n'] := by
    cases s with
    | mk data => rfl
  rw [pySplitNl, h, splitNlAux_append_newline, pySplitNl]

theorem processLines_append_ok (blocks : List String) (hl : String → String)
    (sbn : Bool) : ∀ ls ms : List String,
    (processLines blocks hl sbn ls).2 = none →
    processLines blocks hl sbn (ls ++ ms) =
      ((processLines blocks hl sbn ls).1 ++ (processLines blocks hl sbn ms).1,
       (processLines blocks hl sbn ms).2) := by
  intro ls
  induction ls with
  | nil => intro ms _; simp [processLines]
  | cons line rest ih =>
      intro ms hok
      have hcons : (line :: rest) ++ ms = line :: (rest ++ ms) := rfl
      rw [hcons]
      cases hpm : parseMarker line with
      | none =>
          simp only [processLines, hpm] at hok ⊢
          rw [ih ms hok]
          simp
      | some idx =>
          cases hbi : blocks[idx]? with
          | none => simp [processLines, hpm, hbi] at hok
          | some b =>
              simp only [processLines, hpm, hbi] at hok ⊢
              rw [ih ms hok]
              simp

theorem processLines_invalid (blocks : List String) (hl : String → String)
    (sbn : Bool) : ∀ (ls : List String) (line : String) (idx : Nat),
    line ∈ ls → parseMarker line = some idx → blocks.length ≤ idx →
    (processLines blocks hl sbn ls).2 = some BRError.InvalidMarkerIndex := by
  intro ls
  induction ls with
  | nil => intro line idx h; simp at h
  | cons a rest ih =>
      intro line idx hmem hpm hge
      rcases List.mem_cons.mp hmem with rfl | hmem'
      · have : blocks[idx]? = none := List.getElem?_eq_none hge
        simp [processLines, hpm, this]
      · cases hpa : parseMarker a with
        | none => simpa [processLines, hpa] using ih line idx hmem' hpm hge
        | some j =>
            cases hbj : blocks[j]? with
            | none => simp [processLines, hpa, hbj]
            | some b => simpa [processLines, hpa, hbj] using ih line idx hmem' hpm hge

/-- C3: Out-of-range marker index.  For every block sequence and every
line of the split output that matches the marker grammar with an index
not below the number of blocks, reassembly terminates with the fatal
`InvalidMarkerIndex` (the uncaught IndexError of `blocks[idx]`); the
marker is neither passed through nor clamped. -/
theorem invalid_marker_index (blocks : List String) (hl : String → String)
    (sbn : Bool) (output line : String) (idx : Nat)
    (hmem : line ∈ pySplitNl output) (hpm : parseMarker line = some idx)
    (hge : blocks.length ≤ idx) :
    (process_output output blocks hl sbn).2 = some BRError.InvalidMarkerIndex :=
  processLines_invalid blocks hl sbn (pySplitNl output) line idx hmem hpm hge

/-- Witness for C3: marker index 5 with only two blocks is fatal. -/
theorem invalid_marker_index_witness :
    (process_output "\x1d{5}\x1d" ["echo hi", "echo bye"] id false).2 =
      some BRError.InvalidMarkerIndex :=
  invalid_marker_index ["echo hi", "echo bye"] id false "\x1d{5}\x1d" "\x1d{5}\x1d" 5
    (by decide) (by decide) (by decide)

/-- C2 counterexample: on blocks ["echo hi", "echo bye"] and wrapper
output "\x1d{0}\x1d\nhi\n\x1d{1}\x1d\nbye\n", reassembly with headers
disabled does not emit exactly the six items block 0, separator, "hi",
block 1, separator, "bye": a seventh, empty, pass-through line follows
(the final empty segment of the split on the trailing newline). -/
theorem marker_roundtrip_cex :
    process_output "\x1d{0}\x1d\nhi\n\x1d{1}\x1d\nbye\n" ["echo hi", "echo bye"]
        id false ≠
      (["echo hi", separator, "hi", "echo bye", separator, "bye"], none) := by
  decide

/-- C2 (amended): on blocks ["echo hi", "echo bye"] and wrapper output
"\x1d{0}\x1d\nhi\n\x1d{1}\x1d\nbye\n", reassembly with headers disabled
emits, in order: rendered block 0, a separator, "hi", rendered block 1,
a separator, "bye", and one final empty pass-through line from the
trailing newline; the captured output is split on the newline character
only — the marker lines survive the split intact even though they
contain the separator character. -/
theorem marker_roundtrip (hl : String → String) :
    pySplitNl "\x1d{0}\x1d\nhi\n\x1d{1}\x1d\nbye\n" =
      ["\x1d{0}\x1d", "hi", "\x1d{1}\x1d", "bye", ""] ∧
    process_output "\x1d{0}\x1d\nhi\n\x1d{1}\x1d\nbye\n" ["echo hi", "echo bye"]
        hl false =
      ([hl "echo hi", separator, "hi", hl "echo bye", separator, "bye", ""], none) := by
  constructor
  · decide
  · rfl

/-- Witness for C2 at the identity renderer. -/
theorem marker_roundtrip_witness :
    process_output "\x1d{0}\x1d\nhi\n\x1d{1}\x1d\nbye\n" ["echo hi", "echo bye"]
        id false =
      (["echo hi", separator, "hi", "echo bye", separator, "bye", ""], none) :=
  (marker_roundtrip id).2

/-- C9 counterexample: the captured output "\x1d{0}\x1d\n" ends with a
newline, but with zero blocks reassembly aborts on the invalid marker
before reaching the final empty segment: nothing is emitted, in
particular no trailing empty pass-through line. -/
theorem trailing_newline_cex :
    (process_output "\x1d{0}\x1d\n" [] id false).1 = [] ∧
    (process_output "\x1d{0}\x1d\n" [] id false).2 = some BRError.InvalidMarkerIndex ∧
    (process_output "\x1d{0}\x1d\n" [] id false).1.getLast? ≠ some "" := by
  decide

/-- C9 (amended): for every captured wrapper output that ends with a
newline character and whose reassembly is not aborted by an invalid
marker index, the reassembler emits one additional empty pass-through
line after all other output — the final empty segment of the split on
"\n" does not match the marker grammar and is printed unchanged. -/
theorem trailing_newline_extra_line (output : String) (blocks : List String)
    (hl : String → String) (sbn : Bool)
    (h : (process_output output blocks hl sbn).2 = none) :
    process_output (output ++ "\n") blocks hl sbn =
      ((process_output output blocks hl sbn).1 ++ [""], none) := by
  unfold process_output at h ⊢
  rw [pySplitNl_append_newline]
  rw [processLines_append_ok blocks hl sbn _ [""] h]
  have hempty : parseMarker "" = none := rfl
  simp [processLines, hempty]

/-- Witness for C9: plain output "hi\n" gains a final empty line. -/
theorem trailing_newline_extra_line_witness :
    process_output ("hi" ++ "\n") ["b"] id false =
      ((process_output "hi" ["b"] id false).1 ++ [""], none) :=
  trailing_newline_extra_line "hi" ["b"] id false (by decide)


/-- C6: Shebang parsing examples.  "#!/usr/bin/env python3" resolves to
the search-path resolution of "python3" when there is one and to the
bare token "python3" otherwise; "#!/usr/local/bin/node --harmony"
resolves to "/usr/local/bin/node" (arguments discarded); "#!" has an
empty remainder and fails (malformed shebang). -/
theorem shebang_examples (which : String → Option String) :
    parse_shebang which "#!/usr/bin/env python3" =
      some ((which "python3").getD "python3") ∧
    parse_shebang which "#!/usr/local/bin/node --harmony" = some "/usr/local/bin/node" ∧
    parse_shebang which "#!" = none := by
  refine ⟨?_, rfl, rfl⟩
  show resolveRemainder which (shebangRemainder "#!/usr/bin/env python3") = _
  have h : shebangRemainder "#!/usr/bin/env python3" = "/usr/bin/env python3" := by decide
  rw [h, resolveRemainder]
  rw [if_neg (by decide)]
  have h2 : envMatch "/usr/bin/env python3" = some "python3" := by decide
  rw [h2]
  cases h3 : which "python3" with
  | none => simp [h3]
  | some r => simp [h3]

/-- Witness for C6 under an empty search path. -/
theorem shebang_examples_witness :
    parse_shebang (fun _ => none) "#!/usr/bin/env python3" = some "python3" := by
  have h := (shebang_examples (fun _ => none)).1
  simpa using h

/-- C8 counterexample: the line "#!!/bin/x" resolves to "/bin/x", not
to the token "!/bin/x" predicted by a strict two-character prefix
strip: `lstrip("#!")` removes the whole leading run of '#' and '!'
characters. -/
theorem shebang_prefix_strip_cex :
    parse_shebang (fun _ => none) "#!!/bin/x" = some "/bin/x" ∧
    parse_shebang (fun _ => none) "#!!/bin/x" ≠ some "!/bin/x" := by
  decide

/-- C8 (amended): for every first line beginning with "#!", the
resolver operates on the remainder of the line after removing the
maximal leading run of '#' and '!' characters, stripped of surrounding
whitespace — so "#!!/bin/x" has remainder "/bin/x" and resolves to
"/bin/x". -/
theorem shebang_prefix_stripping (which : String → Option String) (s : String) :
    parse_shebang which ("#!" ++ s) = resolveRemainder which (shebangRemainder s) ∧
    parse_shebang which "#!!/bin/x" = some "/bin/x" := by
  constructor
  · unfold parse_shebang shebangRemainder
    have h : ("#!" ++ s).toList = '#' :: '!' :: s.toList := by
      cases s with
      | mk d => rfl
    rw [h]
    simp [List.dropWhile]
  · rfl

/-- Witness for C8 at a concrete tail. -/
theorem shebang_prefix_stripping_witness :
    parse_shebang (fun _ => none) ("#!" ++ "/bin/sh") =
      resolveRemainder (fun _ => none) (shebangRemainder "/bin/sh") ∧
    parse_shebang (fun _ => none) "#!!/bin/x" = some "/bin/x" :=
  shebang_prefix_stripping (fun _ => none) "/bin/sh"


theorem findWrapperName_falsy (binary : String) :
    ∀ (configs : List (List String)) (wn : Option String),
      wn = none ∨ wn = some "" →
      wrapperNameOrBasename binary (findWrapperName binary configs wn) =
        amended_wrapper_name binary configs := by
  intro configs
  induction configs with
  | nil =>
      intro wn hwn
      rcases hwn with rfl | rfl <;> simp [findWrapperName, wrapperNameOrBasename,
        amended_wrapper_name]
  | cons f rest ih =>
      intro wn hwn
      cases hc : configLookup1 binary f with
      | some v =>
          by_cases hv : v = ""
          · subst hv
            simp only [findWrapperName, hc, truthy, bne_self_eq_false, if_false,
              amended_wrapper_name, if_true]
            exact ih (some "") (Or.inr rfl)
          · simp only [findWrapperName, hc, truthy, amended_wrapper_name]
            rw [if_pos (by simpa using hv), if_neg hv]
            simp [wrapperNameOrBasename, hv]
      | none =>
          have ht : truthy wn = false := by
            rcases hwn with rfl | rfl <;> simp [truthy]
          simp only [findWrapperName, hc, ht, Bool.false_eq_true, if_false,
            amended_wrapper_name]
          exact ih wn hwn

/-- C5 counterexample: with config sources [["b="], ["b=w"]] the first
source contains an entry keyed by "b", so the claim's rule picks the
empty wrapper name and finds nothing; the code skips the empty value,
takes "w" from the second source and returns "d/w". -/
theorem wrapper_locator_cex :
    find_wrapper "b" [["b="], ["b=w"]] [("d", fun n => n == "w")] = some "d/w" ∧
    claim_find_wrapper "b" [["b="], ["b=w"]] [("d", fun n => n == "w")] = none ∧
    find_wrapper "b" [["b="], ["b=w"]] [("d", fun n => n == "w")] ≠
      claim_find_wrapper "b" [["b="], ["b=w"]] [("d", fun n => n == "w")] := by
  decide

/-- C5 (amended): the locator obtains the wrapper name from the first
config source whose entry keyed by the full identifier has a non-empty
stripped value (empty-valued entries are skipped); with no such entry
the name is the identifier's basename; the returned path is the first
directory in order containing an executable of that name, and not
found is returned exactly when no directory contains one. -/
theorem wrapper_locator (binary : String) (configs : List (List String))
    (dirs : List (String × (String → Bool))) :
    find_wrapper binary configs dirs =
      searchDirs (amended_wrapper_name binary configs) dirs ∧
    (∀ name, searchDirs name dirs = none ↔ ∀ d ∈ dirs, d.2 name = false) ∧
    (∀ name i, ∀ hi : i < dirs.length,
        ((dirs.take i).all (fun d => !d.2 name)) = true →
        (dirs.get ⟨i, hi⟩).2 name = true →
        searchDirs name dirs = some (pathJoin (dirs.get ⟨i, hi⟩).1 name)) := by
  refine ⟨?_, ?_, ?_⟩
  · unfold find_wrapper
    rw [findWrapperName_falsy binary configs none (Or.inl rfl)]
  · intro name
    induction dirs with
    | nil => simp [searchDirs]
    | cons d rest ih =>
        rcases d with ⟨dp, dx⟩
        cases hx : dx name <;> simp [searchDirs, hx, ih]
  · intro name i
    induction dirs generalizing i with
    | nil => intro hi; simp at hi
    | cons d rest ih =>
        intro hi htake hget
        rcases d with ⟨dp, dx⟩
        cases i with
        | zero =>
            simp only [List.get] at hget
            simp [searchDirs, hget]
        | succ j =>
            simp only [List.take_succ_cons, List.all_cons, Bool.and_eq_true] at htake
            have hx : dx name = false := by simpa using htake.1
            simp only [searchDirs, hx, Bool.false_eq_true, if_false]
            exact ih j (Nat.lt_of_succ_lt_succ hi) htake.2 hget

/-- Witness for C5: basename fallback plus first-match directory
search, second directory winning. -/
theorem wrapper_locator_witness :
    find_wrapper "b" [["b=w"]] [("d1", fun n => n == "zz"), ("d2", fun n => n == "w")] =
      searchDirs (amended_wrapper_name "b" [["b=w"]])
        [("d1", fun n => n == "zz"), ("d2", fun n => n == "w")] ∧
    searchDirs "w" [("d1", fun n => n == "zz"), ("d2", fun n => n == "w")] =
      some (pathJoin "d2" "w") := by
  have h := wrapper_locator "b" [["b=w"]]
    [("d1", fun n => n == "zz"), ("d2", fun n => n == "w")]
  exact ⟨h.1, h.2.2 "w" 1 (by decide) (by decide) (by decide)⟩

/-- C10: an empty (or whitespace-only, hence stripped-empty) config
value behaves as if the source had no override: later config sources
are still consulted, and when every source yields nothing or an empty
value the wrapper name falls back to the identifier's basename. -/
theorem empty_config_override (binary : String) (f : List String)
    (configs : List (List String)) (dirs : List (String × (String → Bool)))
    (h : configLookup1 binary f = some "") :
    find_wrapper binary (f :: configs) dirs = find_wrapper binary configs dirs ∧
    ((∀ g ∈ f :: configs,
        configLookup1 binary g = none ∨ configLookup1 binary g = some "") →
      find_wrapper binary (f :: configs) dirs = searchDirs (pathBasename binary) dirs) := by
  have hstep : find_wrapper binary (f :: configs) dirs = find_wrapper binary configs dirs := by
    unfold find_wrapper
    rw [findWrapperName_falsy binary (f :: configs) none (Or.inl rfl),
      findWrapperName_falsy binary configs none (Or.inl rfl)]
    simp only [amended_wrapper_name, h, if_true]
  refine ⟨hstep, ?_⟩
  intro hall
  rw [hstep]
  unfold find_wrapper
  rw [findWrapperName_falsy binary configs none (Or.inl rfl)]
  have : amended_wrapper_name binary configs = pathBasename binary := by
    clear hstep
    induction configs with
    | nil => rfl
    | cons g rest ih =>
        rcases hall g (by simp) with hg | hg
        · simp only [amended_wrapper_name, hg]
          exact ih (fun x hx => hall x (by simp [List.mem_cons] at hx ⊢; tauto))
        · simp only [amended_wrapper_name, hg, if_pos]
          exact ih (fun x hx => hall x (by simp [List.mem_cons] at hx ⊢; tauto))
  rw [this]

/-- Witness for C10: the empty-valued entry "b=" is skipped and the
basename "b" is searched. -/
theorem empty_config_override_witness :
    find_wrapper "b" [["b="]] [("d", fun n => n == "b")] =
      find_wrapper "b" [] [("d", fun n => n == "b")] ∧
    find_wrapper "b" [["b="]] [("d", fun n => n == "b")] =
      searchDirs (pathBasename "b") [("d", fun n => n == "b")] := by
  have h := empty_config_override "b" ["b="] [] [("d", fun n => n == "b")] (by decide)
  exact ⟨h.1, h.2 (by decide)⟩

/-- C7: Executor argument vector.  The invocation vector is exactly the
wrapper path, "--binary", the binary identifier, "--", then every block
as one discrete argument in block order: position 4 + i holds block i
and the length is 4 plus the number of blocks. -/
theorem executor_argv (w b : String) (blocks : List String) :
    wrapper_args w b blocks = w :: "--binary" :: b :: "--" :: blocks ∧
    (wrapper_args w b blocks).length = 4 + blocks.length ∧
    ∀ i, (wrapper_args w b blocks)[4 + i]? = blocks[i]? := by
  refine ⟨rfl, by simp [wrapper_args]; omega, ?_⟩
  intro i
  have h4 : ([w, "--binary", b, "--"] : List String).length = 4 := rfl
  rw [wrapper_args, List.getElem?_append_right (by omega)]
  simp

/-- Witness for C7 at two concrete blocks. -/
theorem executor_argv_witness :
    wrapper_args "/usr/local/share/block-run/wrappers/sh" "/bin/sh" ["echo one", "echo two"] =
      ["/usr/local/share/block-run/wrappers/sh", "--binary", "/bin/sh", "--",
       "echo one", "echo two"] :=
  (executor_argv "/usr/local/share/block-run/wrappers/sh" "/bin/sh"
    ["echo one", "echo two"]).1

end BlockRun
